import Mathlib

/-
Verification of the task-execution engine in core.h (CoreTemplate).

The scheduler state (registry, active list, queued list, blockStartTask
flag) and every operation that mutates it on the serialising context are
embedded as pure Lean functions over an explicit state record.  Task
records live in a heap indexed by the monotonically increasing id counter;
lifecycle events carry the snapshot of the active list at the instant the
corresponding signal is emitted, so that the order between list removal and
event emission is observable in the model.  Deferred stop checks
(QTimer::singleShot in Core::stopTask) and the engine-drain timer of
Core::stopTasks are modelled as armed items that a separate step fires.
-/

namespace CoreTemplate

abbrev TaskId := Nat
abbrev TaskType := Int
abbrev TaskGroup := Int
abbrev TaskStopTimeout := Int

/-- Lifecycle states, from `enum class TaskState` in core.h. -/
inductive TaskState
  | Inactive
  | Active
  | Finished
  | Terminated
  deriving DecidableEq, Repr

/-- Registry entry, from `struct TaskInfo` in core.h.  The stored
`std::any m_function` is abstracted to the exact argument-type signature the
erased `std::function<QVariant(Args...)>` was registered with (each C++ type
is a token); `sig = none` models a default-constructed (empty) `std::any`,
on which every `std::any_cast` fails. -/
structure TaskInfo where
  sig : Option (List Nat)
  group : TaskGroup
  stopTimeout : TaskStopTimeout
  deriving DecidableEq, Repr

/-- A value-initialized `TaskInfo`, as produced by QHash::operator[] when the
key is absent: empty `std::any`, group 0, stopTimeout 0. -/
def defaultTaskInfo : TaskInfo := ⟨none, 0, 0⟩

/-- Per-invocation record, from `struct Task` in core.h.  The id is the heap
index; the bound call and thread handle are abstracted away. -/
structure Task where
  type : TaskType
  group : TaskGroup
  stopFlag : Bool
  state : TaskState
  deriving DecidableEq, Repr

def dummyTask : Task := ⟨0, 0, false, TaskState.Inactive⟩

/-- The three lifecycle signals of Core. -/
inductive EventKind
  | Started
  | Finished
  | Terminated
  deriving DecidableEq, Repr

/-- One emitted signal.  `activeAtEmit` is the content of the active list at
the instant of the `emit`, which is what a synchronously connected observer
sees when it queries the engine while handling the event. -/
structure Event where
  kind : EventKind
  id : TaskId
  type : TaskType
  activeAtEmit : List TaskId
  deriving DecidableEq, Repr

/-- Scheduler state of one Core instance.  `records` is the heap of all task
records ever created (shared pointers in the source keep them alive);
entries at indices at or above `idCounter` are meaningless.
`pendingChecks` holds the armed QTimer::singleShot deferred stop checks of
Core::stopTask, in arming order; `stopTimers` holds the armed repeating
timers of Core::stopTasks (their intervals). -/
structure CoreState where
  taskHash : List (TaskType × TaskInfo)
  records : TaskId → Task
  activeTaskList : List TaskId
  queuedTaskList : List TaskId
  blockStartTask : Bool
  idCounter : TaskId
  pendingChecks : List TaskId
  stopTimers : List TaskStopTimeout
  events : List Event

/-- QHash::contains. -/
def hashContains (h : List (TaskType × TaskInfo)) (t : TaskType) : Bool :=
  h.any (fun p => p.1 == t)

/-- QHash lookup without insertion (used where the source guards with
`contains` first). -/
def hashLookup (h : List (TaskType × TaskInfo)) (t : TaskType) : Option TaskInfo :=
  (h.find? (fun p => p.1 == t)).map (fun p => p.2)

/-- QHash::remove. -/
def hashRemove (h : List (TaskType × TaskInfo)) (t : TaskType) : List (TaskType × TaskInfo) :=
  h.filter (fun p => p.1 != t)

/-- QHash::operator[] on a non-const hash: returns the stored value, first
inserting a value-initialized `TaskInfo` when the key is absent. -/
def hashBracket (h : List (TaskType × TaskInfo)) (t : TaskType) :
    TaskInfo × List (TaskType × TaskInfo) :=
  match hashLookup h t with
  | some info => (info, h)
  | none => (defaultTaskInfo, h ++ [(t, defaultTaskInfo)])

/-- Write `pTask->m_state = st` for the record `id`. -/
def setTaskState (s : CoreState) (id : TaskId) (st : TaskState) : CoreState :=
  { s with records := fun i => if i = id then { s.records id with state := st } else s.records i }

/-- Write `pTask->m_stopFlag.store(b)` for the record `id`. -/
def setStopFlag (s : CoreState) (id : TaskId) (b : Bool) : CoreState :=
  { s with records := fun i => if i = id then { s.records id with stopFlag := b } else s.records i }

/-- Emit one lifecycle signal, recording the active list as an observer
handling the signal would see it. -/
def emitEvent (s : CoreState) (k : EventKind) (id : TaskId) : CoreState :=
  { s with events := s.events ++ [⟨k, id, (s.records id).type, s.activeTaskList⟩] }

/-- Core::startTask: append to the active list, set the state to Active,
spawn the worker (abstracted) and emit `startedTask`. -/
def startTask (s : CoreState) (id : TaskId) : CoreState :=
  let s1 := { s with activeTaskList := s.activeTaskList ++ [id] }
  let s2 := setTaskState s1 id TaskState.Active
  emitEvent s2 EventKind.Started id

/-- One iteration of the loop in Core::startQueuedTask: start the queued
record when `std::all_of` over the active list finds no record of the same
group, otherwise keep it queued (the source advances the iterator; here the
kept record is re-appended to the rebuilt queued list, preserving order). -/
def drainStep (s : CoreState) (id : TaskId) : CoreState :=
  let start := s.activeTaskList.all (fun aid => (s.records id).group != (s.records aid).group)
  if start then startTask s id
  else { s with queuedTaskList := s.queuedTaskList ++ [id] }

/-- Core::startQueuedTask: a single front-to-back pass over the queued
list. -/
def startQueuedTask (s : CoreState) : CoreState :=
  s.queuedTaskList.foldl drainStep { s with queuedTaskList := [] }

/-- The `TaskHelper::finished` handler connected in Core::startTask: set the
state to Finished, emit `finishedTask`, then remove the record from the
active list and drain the queue.  It is applicable only to a record whose
worker is running, i.e. an active record. -/
def finishTask (s : CoreState) (id : TaskId) : CoreState :=
  if s.activeTaskList.contains id then
    let s1 := setTaskState s id TaskState.Finished
    let s2 := emitEvent s1 EventKind.Finished id
    let s3 := { s2 with activeTaskList := s2.activeTaskList.filter (fun a => a != id) }
    startQueuedTask s3
  else s

/-- Core::terminateTask: cancel the thread (abstracted), set the state to
Terminated, emit `terminatedTask`, remove from the active list, drain. -/
def terminateTask (s : CoreState) (id : TaskId) : CoreState :=
  let s1 := setTaskState s id TaskState.Terminated
  let s2 := emitEvent s1 EventKind.Terminated id
  let s3 := { s2 with activeTaskList := s2.activeTaskList.filter (fun a => a != id) }
  startQueuedTask s3

/-- Core::stopTask: set the stop flag and arm the deferred check.  The
timeout is read with `m_taskHash[pTask->m_type]`, QHash::operator[], which
inserts a value-initialized descriptor when the type is absent. -/
def stopTask (s : CoreState) (id : TaskId) : CoreState :=
  let s1 := setStopFlag s id true
  let lookupRes := hashBracket s1.taskHash (s1.records id).type
  let s2 := { s1 with taskHash := lookupRes.2 }
  { s2 with pendingChecks := s2.pendingChecks ++ [id] }

/-- The QTimer::singleShot lambda armed by Core::stopTask, firing once: only
a record still in state Active is terminated; Finished, Terminated and the
default case just log. -/
def deferredStopCheck (s : CoreState) (id : TaskId) : CoreState :=
  if s.pendingChecks.contains id then
    let s1 := { s with pendingChecks := s.pendingChecks.erase id }
    match (s1.records id).state with
    | TaskState.Active => terminateTask s1 id
    | _ => s1
  else s

/-- Core::activeTaskById: first record in the active list with this id. -/
def activeTaskById (s : CoreState) (id : TaskId) : Option TaskId :=
  s.activeTaskList.find? (fun a => a == id)

/-- Core::activeTaskByType: first record in the active list of this type. -/
def activeTaskByType (s : CoreState) (t : TaskType) : Option TaskId :=
  s.activeTaskList.find? (fun a => (s.records a).type == t)

/-- Core::activeTaskByGroup: first record in the active list of this
group. -/
def activeTaskByGroup (s : CoreState) (g : TaskGroup) : Option TaskId :=
  s.activeTaskList.find? (fun a => (s.records a).group == g)

/-- Core::terminateTaskById: no-op when no active record has the id. -/
def terminateTaskById (s : CoreState) (id : TaskId) : CoreState :=
  match activeTaskById s id with
  | some tid => terminateTask s tid
  | none => s

/-- Core::stopTaskById. -/
def stopTaskById (s : CoreState) (id : TaskId) : CoreState :=
  match activeTaskById s id with
  | some tid => stopTask s tid
  | none => s

/-- Core::stopTaskByType. -/
def stopTaskByType (s : CoreState) (t : TaskType) : CoreState :=
  match activeTaskByType s t with
  | some tid => stopTask s tid
  | none => s

/-- Core::stopTaskByGroup. -/
def stopTaskByGroup (s : CoreState) (g : TaskGroup) : CoreState :=
  match activeTaskByGroup s g with
  | some tid => stopTask s tid
  | none => s

/-- Core::isIdle. -/
def isIdle (s : CoreState) : Bool :=
  s.activeTaskList.isEmpty

/-- Core::stopTasks: block admissions, compute the maximum stop timeout over
the active records (again via QHash::operator[]), request a cooperative stop
of every active record in list order, then arm the repeating timer with that
maximum interval. -/
def stopTasks (s : CoreState) : CoreState :=
  let s1 := { s with blockStartTask := true }
  let maxLoop := s1.activeTaskList.foldl
    (fun (acc : TaskStopTimeout × List (TaskType × TaskInfo)) id =>
      let lr := hashBracket acc.2 (s1.records id).type
      (max acc.1 lr.1.stopTimeout, lr.2))
    (0, s1.taskHash)
  let s2 := { s1 with taskHash := maxLoop.2 }
  let s3 := s2.activeTaskList.foldl stopTask s2
  { s3 with stopTimers := s3.stopTimers ++ [maxLoop.1] }

/-- One firing of the repeating timer armed by Core::stopTasks: when the
engine is idle, clear `m_blockStartTask` and stop (delete) that timer;
otherwise the timer stays armed. -/
def stopTasksTimerFire (s : CoreState) : CoreState :=
  match s.stopTimers with
  | [] => s
  | _ :: rest => if isIdle s then { s with blockStartTask := false, stopTimers := rest } else s

/-- Error kinds thrown by the engine (std::logic_error sites in core.h). -/
inductive CoreError
  | NotRegistered
  | ArgMismatch
  | AlreadyRegistered
  deriving DecidableEq, Repr

/-- Core::addTask.  The function is declared `void`: it returns nothing to
its caller (`Except.ok ()` models the normal return), and the id drawn from
the monotonic counter in the Task constructor is observable only through
the `startedTask` signal.  The
`std::any_cast<std::function<QVariant(Args...)>>` succeeds exactly when the
supplied argument-type signature coincides with the registered one; on
failure the logic_error propagates with the engine state untouched.  On
success a record is created with the next id and either started (group free
of active records and not blocked) or appended to the queued list. -/
def addTask (s : CoreState) (taskType : TaskType) (args : List Nat) :
    Except CoreError Unit × CoreState :=
  if ¬ hashContains s.taskHash taskType then (Except.error CoreError.NotRegistered, s)
  else
    let info := (hashLookup s.taskHash taskType).getD defaultTaskInfo
    if info.sig ≠ some args then (Except.error CoreError.ArgMismatch, s)
    else
      let id := s.idCounter
      let newTask : Task := ⟨taskType, info.group, false, TaskState.Inactive⟩
      let s1 := { s with idCounter := id + 1,
                         records := fun i => if i = id then newTask else s.records i }
      let start := !(s1.activeTaskList.any (fun aid => (s1.records aid).group == info.group))
      if start && !s1.blockStartTask then (Except.ok (), startTask s1 id)
      else (Except.ok (), { s1 with queuedTaskList := s1.queuedTaskList ++ [id] })

/-- Core::registerTask / Core::insertToTaskHash: throws (state unchanged)
when the type is already present, otherwise stores the descriptor. -/
def registerTask (s : CoreState) (taskType : TaskType) (sig : List Nat)
    (group : TaskGroup) (stopTimeout : TaskStopTimeout) : CoreState :=
  if hashContains s.taskHash taskType then s
  else { s with taskHash := s.taskHash ++ [(taskType, ⟨some sig, group, stopTimeout⟩)] }

/-- Core::unregisterTask: `m_taskHash.remove(taskType) > 0`. -/
def unregisterTask (s : CoreState) (taskType : TaskType) : Bool × CoreState :=
  (hashContains s.taskHash taskType, { s with taskHash := hashRemove s.taskHash taskType })

/-- Core::isTaskRegistered. -/
def isTaskRegistered (s : CoreState) (t : TaskType) : Bool :=
  hashContains s.taskHash t

/-- Core::groupByTask: returns the descriptor group with ok set, or the
sentinel -1 with ok cleared for an unknown type. -/
def groupByTask (s : CoreState) (t : TaskType) : TaskGroup × Bool :=
  if isTaskRegistered s t then (((hashLookup s.taskHash t).getD defaultTaskInfo).group, true)
  else (-1, false)

/-- The operations a client and the serialising context can perform; this is
the alphabet of legal engine histories. -/
inductive Op
  | register (t : TaskType) (sig : List Nat) (g : TaskGroup) (tmo : TaskStopTimeout)
  | unregister (t : TaskType)
  | add (t : TaskType) (args : List Nat)
  | finish (id : TaskId)
  | stopById (id : TaskId)
  | stopByType (t : TaskType)
  | stopByGroup (g : TaskGroup)
  | termById (id : TaskId)
  | check (id : TaskId)
  | stopAll
  | timerFire
  deriving DecidableEq, Repr

def step (s : CoreState) : Op → CoreState
  | Op.register t sig g tmo => registerTask s t sig g tmo
  | Op.unregister t => (unregisterTask s t).2
  | Op.add t args => (addTask s t args).2
  | Op.finish id => finishTask s id
  | Op.stopById id => stopTaskById s id
  | Op.stopByType t => stopTaskByType s t
  | Op.stopByGroup g => stopTaskByGroup s g
  | Op.termById id => terminateTaskById s id
  | Op.check id => deferredStopCheck s id
  | Op.stopAll => stopTasks s
  | Op.timerFire => stopTasksTimerFire s

def run (s : CoreState) (ops : List Op) : CoreState :=
  ops.foldl step s

/-- A freshly constructed Core. -/
def initState : CoreState :=
  { taskHash := []
    records := fun _ => dummyTask
    activeTaskList := []
    queuedTaskList := []
    blockStartTask := false
    idCounter := 0
    pendingChecks := []
    stopTimers := []
    events := [] }

/-- States produced by some legal sequence of engine operations. -/
def Reachable (s : CoreState) : Prop :=
  ∃ ops : List Op, run initState ops = s

/-- Groups of the records currently in the active list, in list order. -/
def activeGroups (s : CoreState) : List TaskGroup :=
  s.activeTaskList.map (fun id => (s.records id).group)

/-- Structural well-formedness of a scheduler state: ids in the lists were
issued by the counter, the active list holds at most one record per group,
no id sits in both lists, and queued records are untouched (stop flag clear,
state Inactive). -/
def WF (s : CoreState) : Prop :=
  (∀ id ∈ s.activeTaskList, id < s.idCounter) ∧
  (∀ id ∈ s.queuedTaskList, id < s.idCounter) ∧
  (activeGroups s).Nodup ∧
  s.activeTaskList.Nodup ∧
  s.queuedTaskList.Nodup ∧
  (∀ id ∈ s.activeTaskList, id ∉ s.queuedTaskList) ∧
  (∀ id ∈ s.queuedTaskList, (s.records id).stopFlag = false ∧
      (s.records id).state = TaskState.Inactive)

/-- The single-pass queue walk as §4.4 of the spec words it: walk the queued
list front-to-back carrying the multiset of groups currently active; a
record whose group is not held is removed and started (its group joining the
active ones for the rest of the walk), every other record is skipped in
order.  Returns (started, skipped). -/
def drainSpecWalk (gs : List TaskGroup) (g : TaskId → TaskGroup) :
    List TaskId → List TaskId × List TaskId
  | [] => ([], [])
  | id :: rest =>
    if g id ∈ gs then
      let r := drainSpecWalk gs g rest
      (r.1, id :: r.2)
    else
      let r := drainSpecWalk (gs ++ [g id]) g rest
      (id :: r.1, r.2)

/-! Projection lemmas for the elementary state mutations. -/

@[simp] theorem setTaskState_activeTaskList (s : CoreState) (id : TaskId) (st : TaskState) :
    (setTaskState s id st).activeTaskList = s.activeTaskList := rfl

@[simp] theorem setTaskState_queuedTaskList (s : CoreState) (id : TaskId) (st : TaskState) :
    (setTaskState s id st).queuedTaskList = s.queuedTaskList := rfl

@[simp] theorem setTaskState_idCounter (s : CoreState) (id : TaskId) (st : TaskState) :
    (setTaskState s id st).idCounter = s.idCounter := rfl

@[simp] theorem setTaskState_events (s : CoreState) (id : TaskId) (st : TaskState) :
    (setTaskState s id st).events = s.events := rfl

theorem setTaskState_records (s : CoreState) (id i : TaskId) (st : TaskState) :
    (setTaskState s id st).records i
      = if i = id then { s.records id with state := st } else s.records i := rfl

theorem setTaskState_records_ne (s : CoreState) (id i : TaskId) (st : TaskState) (h : i ≠ id) :
    (setTaskState s id st).records i = s.records i := by
  rw [setTaskState_records, if_neg h]

@[simp] theorem setTaskState_records_group (s : CoreState) (id i : TaskId) (st : TaskState) :
    ((setTaskState s id st).records i).group = (s.records i).group := by
  rw [setTaskState_records]
  by_cases h : i = id
  · subst h; simp
  · rw [if_neg h]

@[simp] theorem setTaskState_records_type (s : CoreState) (id i : TaskId) (st : TaskState) :
    ((setTaskState s id st).records i).type = (s.records i).type := by
  rw [setTaskState_records]
  by_cases h : i = id
  · subst h; simp
  · rw [if_neg h]

@[simp] theorem setTaskState_records_stopFlag (s : CoreState) (id i : TaskId) (st : TaskState) :
    ((setTaskState s id st).records i).stopFlag = (s.records i).stopFlag := by
  rw [setTaskState_records]
  by_cases h : i = id
  · subst h; simp
  · rw [if_neg h]

theorem setStopFlag_records (s : CoreState) (id i : TaskId) (b : Bool) :
    (setStopFlag s id b).records i
      = if i = id then { s.records id with stopFlag := b } else s.records i := rfl

@[simp] theorem setStopFlag_activeTaskList (s : CoreState) (id : TaskId) (b : Bool) :
    (setStopFlag s id b).activeTaskList = s.activeTaskList := rfl

@[simp] theorem setStopFlag_queuedTaskList (s : CoreState) (id : TaskId) (b : Bool) :
    (setStopFlag s id b).queuedTaskList = s.queuedTaskList := rfl

@[simp] theorem setStopFlag_records_group (s : CoreState) (id i : TaskId) (b : Bool) :
    ((setStopFlag s id b).records i).group = (s.records i).group := by
  rw [setStopFlag_records]
  by_cases h : i = id
  · subst h; simp
  · rw [if_neg h]

@[simp] theorem setStopFlag_records_state (s : CoreState) (id i : TaskId) (b : Bool) :
    ((setStopFlag s id b).records i).state = (s.records i).state := by
  rw [setStopFlag_records]
  by_cases h : i = id
  · subst h; simp
  · rw [if_neg h]

/-! Projection lemmas for Core::startTask. -/

@[simp] theorem startTask_activeTaskList (s : CoreState) (id : TaskId) :
    (startTask s id).activeTaskList = s.activeTaskList ++ [id] := rfl

@[simp] theorem startTask_queuedTaskList (s : CoreState) (id : TaskId) :
    (startTask s id).queuedTaskList = s.queuedTaskList := rfl

@[simp] theorem startTask_idCounter (s : CoreState) (id : TaskId) :
    (startTask s id).idCounter = s.idCounter := rfl

@[simp] theorem startTask_taskHash (s : CoreState) (id : TaskId) :
    (startTask s id).taskHash = s.taskHash := rfl

@[simp] theorem startTask_blockStartTask (s : CoreState) (id : TaskId) :
    (startTask s id).blockStartTask = s.blockStartTask := rfl

@[simp] theorem startTask_pendingChecks (s : CoreState) (id : TaskId) :
    (startTask s id).pendingChecks = s.pendingChecks := rfl

@[simp] theorem startTask_stopTimers (s : CoreState) (id : TaskId) :
    (startTask s id).stopTimers = s.stopTimers := rfl

theorem startTask_records (s : CoreState) (id i : TaskId) :
    (startTask s id).records i
      = if i = id then { s.records id with state := TaskState.Active } else s.records i := rfl

theorem startTask_records_ne (s : CoreState) (id i : TaskId) (h : i ≠ id) :
    (startTask s id).records i = s.records i := by
  rw [startTask_records, if_neg h]

@[simp] theorem startTask_records_group (s : CoreState) (id i : TaskId) :
    ((startTask s id).records i).group = (s.records i).group := by
  rw [startTask_records]
  by_cases h : i = id
  · subst h; simp
  · rw [if_neg h]

@[simp] theorem startTask_records_type (s : CoreState) (id i : TaskId) :
    ((startTask s id).records i).type = (s.records i).type := by
  rw [startTask_records]
  by_cases h : i = id
  · subst h; simp
  · rw [if_neg h]

@[simp] theorem startTask_records_stopFlag (s : CoreState) (id i : TaskId) :
    ((startTask s id).records i).stopFlag = (s.records i).stopFlag := by
  rw [startTask_records]
  by_cases h : i = id
  · subst h; simp
  · rw [if_neg h]

theorem startTask_events (s : CoreState) (id : TaskId) :
    (startTask s id).events
      = s.events ++ [⟨EventKind.Started, id, (s.records id).type, s.activeTaskList ++ [id]⟩] := by
  simp [startTask, emitEvent, setTaskState]

/-! The group list of the active records, and the admission guard. -/

@[simp] theorem activeGroups_setTaskState (s : CoreState) (id : TaskId) (st : TaskState) :
    activeGroups (setTaskState s id st) = activeGroups s := by
  unfold activeGroups
  rw [setTaskState_activeTaskList]
  exact List.map_congr_left (fun a _ => setTaskState_records_group s id a st)

theorem activeGroups_startTask (s : CoreState) (id : TaskId) :
    activeGroups (startTask s id) = activeGroups s ++ [(s.records id).group] := by
  unfold activeGroups
  rw [startTask_activeTaskList, List.map_append]
  congr 1
  · exact List.map_congr_left (fun a _ => startTask_records_group s id a)
  · simp

theorem drainStep_guard_iff (s : CoreState) (id : TaskId) :
    (s.activeTaskList.all (fun aid => (s.records id).group != (s.records aid).group) = true)
      ↔ (s.records id).group ∉ activeGroups s := by
  rw [List.all_eq_true]
  unfold activeGroups
  constructor
  · intro h hmem
    obtain ⟨a, ha, hga⟩ := List.mem_map.mp hmem
    exact (bne_iff_ne.mp (h a ha)) hga.symm
  · intro h a ha
    refine bne_iff_ne.mpr (fun hEq => h ?_)
    exact List.mem_map.mpr ⟨a, ha, hEq.symm⟩

theorem drainStep_eq_of_mem (s : CoreState) (id : TaskId)
    (h : (s.records id).group ∈ activeGroups s) :
    drainStep s id = { s with queuedTaskList := s.queuedTaskList ++ [id] } := by
  unfold drainStep
  rw [if_neg]
  intro hguard
  exact (drainStep_guard_iff s id).mp hguard h

theorem drainStep_eq_of_not_mem (s : CoreState) (id : TaskId)
    (h : (s.records id).group ∉ activeGroups s) :
    drainStep s id = startTask s id := by
  unfold drainStep
  rw [if_pos ((drainStep_guard_iff s id).mpr h)]

/-! Unfolding equations of the spec-worded walk. -/

theorem drainSpecWalk_cons_mem (gs : List TaskGroup) (g : TaskId → TaskGroup)
    (id : TaskId) (rest : List TaskId) (h : g id ∈ gs) :
    drainSpecWalk gs g (id :: rest)
      = ((drainSpecWalk gs g rest).1, id :: (drainSpecWalk gs g rest).2) := by
  conv_lhs => rw [drainSpecWalk]
  rw [if_pos h]

theorem drainSpecWalk_cons_not_mem (gs : List TaskGroup) (g : TaskId → TaskGroup)
    (id : TaskId) (rest : List TaskId) (h : g id ∉ gs) :
    drainSpecWalk gs g (id :: rest)
      = (id :: (drainSpecWalk (gs ++ [g id]) g rest).1,
         (drainSpecWalk (gs ++ [g id]) g rest).2) := by
  conv_lhs => rw [drainSpecWalk]
  rw [if_neg h]

theorem drainSpecWalk_fst_sublist (g : TaskId → TaskGroup) (q : List TaskId) :
    ∀ (gs : List TaskGroup), List.Sublist (drainSpecWalk gs g q).1 q := by
  induction q with
  | nil => intro gs; exact List.Sublist.refl _
  | cons id rest ih =>
    intro gs
    by_cases h : g id ∈ gs
    · rw [drainSpecWalk_cons_mem gs g id rest h]
      exact List.Sublist.cons id (ih gs)
    · rw [drainSpecWalk_cons_not_mem gs g id rest h]
      exact List.Sublist.cons₂ id (ih (gs ++ [g id]))

theorem drainSpecWalk_snd_sublist (g : TaskId → TaskGroup) (q : List TaskId) :
    ∀ (gs : List TaskGroup), List.Sublist (drainSpecWalk gs g q).2 q := by
  induction q with
  | nil => intro gs; exact List.Sublist.refl _
  | cons id rest ih =>
    intro gs
    by_cases h : g id ∈ gs
    · rw [drainSpecWalk_cons_mem gs g id rest h]
      exact List.Sublist.cons₂ id (ih gs)
    · rw [drainSpecWalk_cons_not_mem gs g id rest h]
      exact List.Sublist.cons id (ih (gs ++ [g id]))

theorem drainSpecWalk_disjoint (g : TaskId → TaskGroup) (q : List TaskId) :
    ∀ gs, q.Nodup → ∀ i ∈ (drainSpecWalk gs g q).1, i ∉ (drainSpecWalk gs g q).2 := by
  induction q with
  | nil => intro gs _ i hi; simp [drainSpecWalk] at hi
  | cons id rest ih =>
    intro gs hq i hi
    obtain ⟨hid, hrest⟩ := List.nodup_cons.mp hq
    by_cases h : g id ∈ gs
    · rw [drainSpecWalk_cons_mem gs g id rest h] at hi ⊢
      intro hmem
      rcases List.mem_cons.mp hmem with hEq | hmem2
      · exact hid (hEq ▸ (drainSpecWalk_fst_sublist g rest gs).subset hi)
      · exact ih gs hrest i hi hmem2
    · rw [drainSpecWalk_cons_not_mem gs g id rest h] at hi ⊢
      rcases List.mem_cons.mp hi with hEq | hmem2
      · intro hmem
        exact hid (hEq ▸ (drainSpecWalk_snd_sublist g rest (gs ++ [g id])).subset hmem)
      · exact ih (gs ++ [g id]) hrest i hmem2

theorem drainSpecWalk_groups_nodup (g : TaskId → TaskGroup) (q : List TaskId) :
    ∀ gs : List TaskGroup, gs.Nodup → (gs ++ ((drainSpecWalk gs g q).1.map g)).Nodup := by
  induction q with
  | nil => intro gs hgs; simpa [drainSpecWalk] using hgs
  | cons id rest ih =>
    intro gs hgs
    by_cases h : g id ∈ gs
    · rw [drainSpecWalk_cons_mem gs g id rest h]
      exact ih gs hgs
    · rw [drainSpecWalk_cons_not_mem gs g id rest h]
      have hgs2 : (gs ++ [g id]).Nodup := by
        rw [List.nodup_append]
        exact ⟨hgs, List.nodup_singleton _, by simpa [List.disjoint_singleton] using h⟩
      have := ih (gs ++ [g id]) hgs2
      rw [List.append_assoc] at this
      simpa using this

/-- Characterization of the single drain pass: `Core::startQueuedTask`'s
loop realises exactly the spec-worded walk, starting (in queue order) the
records whose groups are free and keeping the others queued in order; it
touches no other part of the scheduler state, and every event it emits is a
`Started` event. -/
theorem foldl_drainStep_spec (q : List TaskId) : ∀ s : CoreState,
    (q.foldl drainStep s).activeTaskList
      = s.activeTaskList ++ (drainSpecWalk (activeGroups s) (fun j => (s.records j).group) q).1 ∧
    (q.foldl drainStep s).queuedTaskList
      = s.queuedTaskList ++ (drainSpecWalk (activeGroups s) (fun j => (s.records j).group) q).2 ∧
    (∀ i, i ∉ (drainSpecWalk (activeGroups s) (fun j => (s.records j).group) q).1 →
      (q.foldl drainStep s).records i = s.records i) ∧
    (∀ i, ((q.foldl drainStep s).records i).group = (s.records i).group ∧
          ((q.foldl drainStep s).records i).type = (s.records i).type ∧
          ((q.foldl drainStep s).records i).stopFlag = (s.records i).stopFlag) ∧
    (q.foldl drainStep s).idCounter = s.idCounter ∧
    (q.foldl drainStep s).taskHash = s.taskHash ∧
    (q.foldl drainStep s).blockStartTask = s.blockStartTask ∧
    (q.foldl drainStep s).pendingChecks = s.pendingChecks ∧
    (q.foldl drainStep s).stopTimers = s.stopTimers ∧
    (∃ tail, (q.foldl drainStep s).events = s.events ++ tail ∧
      ∀ e ∈ tail, e.kind = EventKind.Started) := by
  induction q with
  | nil =>
    intro s
    refine ⟨by simp [drainSpecWalk], by simp [drainSpecWalk], fun i _ => rfl,
      fun i => ⟨rfl, rfl, rfl⟩, rfl, rfl, rfl, rfl, rfl, [], by simp, by simp⟩
  | cons id rest ih =>
    intro s
    rw [List.foldl_cons]
    by_cases hmem : (s.records id).group ∈ activeGroups s
    · rw [drainStep_eq_of_mem s id hmem,
        drainSpecWalk_cons_mem (activeGroups s) (fun j => (s.records j).group) id rest hmem]
      obtain ⟨h1, h2, h3, h4, h5, h6, h7, h8, h9, tail, h10, h11⟩ :=
        ih { s with queuedTaskList := s.queuedTaskList ++ [id] }
      refine ⟨h1, ?_, h3, h4, h5, h6, h7, h8, h9, tail, h10, h11⟩
      rw [h2, List.append_assoc]
      rfl
    · rw [drainStep_eq_of_not_mem s id hmem,
        drainSpecWalk_cons_not_mem (activeGroups s) (fun j => (s.records j).group) id rest hmem]
      obtain ⟨h1, h2, h3, h4, h5, h6, h7, h8, h9, tail, h10, h11⟩ := ih (startTask s id)
      have hfun : (fun j => ((startTask s id).records j).group) = fun j => (s.records j).group :=
        funext (fun j => startTask_records_group s id j)
      rw [activeGroups_startTask, hfun] at h1 h2 h3
      refine ⟨?_, ?_, ?_, ?_, ?_, ?_, ?_, ?_, ?_, ?_⟩
      · rw [h1, startTask_activeTaskList, List.append_assoc]
        rfl
      · rw [h2, startTask_queuedTaskList]
      · intro i hi
        have hi1 : i ∉ (drainSpecWalk (activeGroups s ++ [(s.records id).group])
            (fun j => (s.records j).group) rest).1 := fun hc => hi (List.mem_cons_of_mem id hc)
        have hne : i ≠ id := fun hc => hi (hc ▸ List.mem_cons_self id _)
        rw [h3 i hi1, startTask_records_ne s id i hne]
      · intro i
        obtain ⟨hg, ht, hf⟩ := h4 i
        exact ⟨hg.trans (startTask_records_group s id i),
          ht.trans (startTask_records_type s id i),
          hf.trans (startTask_records_stopFlag s id i)⟩
      · rw [h5]; rfl
      · rw [h6]; rfl
      · rw [h7]; rfl
      · rw [h8]; rfl
      · rw [h9]; rfl
      · refine ⟨⟨EventKind.Started, id, (s.records id).type, s.activeTaskList ++ [id]⟩ :: tail,
          ?_, ?_⟩
        · rw [h10, startTask_events, List.append_assoc]
          rfl
        · intro e he
          rcases List.mem_cons.mp he with hEq | hmem2
          · subst hEq; rfl
          · exact h11 e hmem2

/-- Core::startQueuedTask restated through the spec-worded walk. -/
theorem startQueuedTask_spec (s : CoreState) :
    (startQueuedTask s).activeTaskList
      = s.activeTaskList
          ++ (drainSpecWalk (activeGroups s) (fun j => (s.records j).group) s.queuedTaskList).1 ∧
    (startQueuedTask s).queuedTaskList
      = (drainSpecWalk (activeGroups s) (fun j => (s.records j).group) s.queuedTaskList).2 ∧
    (∀ i, i ∉ (drainSpecWalk (activeGroups s) (fun j => (s.records j).group) s.queuedTaskList).1 →
      (startQueuedTask s).records i = s.records i) ∧
    (∀ i, ((startQueuedTask s).records i).group = (s.records i).group ∧
          ((startQueuedTask s).records i).type = (s.records i).type ∧
          ((startQueuedTask s).records i).stopFlag = (s.records i).stopFlag) ∧
    (startQueuedTask s).idCounter = s.idCounter ∧
    (startQueuedTask s).taskHash = s.taskHash ∧
    (startQueuedTask s).blockStartTask = s.blockStartTask ∧
    (startQueuedTask s).pendingChecks = s.pendingChecks ∧
    (startQueuedTask s).stopTimers = s.stopTimers ∧
    (∃ tail, (startQueuedTask s).events = s.events ++ tail ∧
      ∀ e ∈ tail, e.kind = EventKind.Started) := by
  have h := foldl_drainStep_spec s.queuedTaskList { s with queuedTaskList := [] }
  obtain ⟨h1, h2, h3, h4, h5, h6, h7, h8, h9, tail, h10, h11⟩ := h
  exact ⟨h1, by simpa using h2, h3, h4, h5, h6, h7, h8, h9, tail, h10, h11⟩

/-! Preservation of well-formedness. -/

theorem wf_congr (s t : CoreState)
    (ha : t.activeTaskList = s.activeTaskList)
    (hq : t.queuedTaskList = s.queuedTaskList)
    (hc : t.idCounter = s.idCounter)
    (hr : t.records = s.records)
    (h : WF s) : WF t := by
  unfold WF activeGroups at h ⊢
  rw [ha, hq, hc, hr]
  exact h

theorem wf_startQueuedTask (s : CoreState)
    (h1 : ∀ id ∈ s.activeTaskList, id < s.idCounter)
    (h2 : ∀ id ∈ s.queuedTaskList, id < s.idCounter)
    (h3 : (activeGroups s).Nodup)
    (h4 : s.activeTaskList.Nodup)
    (h5 : s.queuedTaskList.Nodup)
    (h6 : ∀ id ∈ s.activeTaskList, id ∉ s.queuedTaskList)
    (h7 : ∀ id ∈ s.queuedTaskList, (s.records id).stopFlag = false ∧
        (s.records id).state = TaskState.Inactive) :
    WF (startQueuedTask s) := by
  obtain ⟨e1, e2, e3, e4, e5, e6, e7, e8, e9, tail, e10, e11⟩ := startQueuedTask_spec s
  have hsub1 := (drainSpecWalk_fst_sublist (fun j => (s.records j).group)
    s.queuedTaskList (activeGroups s)).subset
  have hsub2 := (drainSpecWalk_snd_sublist (fun j => (s.records j).group)
    s.queuedTaskList (activeGroups s)).subset
  have hdisj := drainSpecWalk_disjoint (fun j => (s.records j).group)
    s.queuedTaskList (activeGroups s) h5
  refine ⟨?_, ?_, ?_, ?_, ?_, ?_, ?_⟩
  · intro id hid
    rw [e1] at hid
    rw [e5]
    rcases List.mem_append.mp hid with hm | hm
    · exact h1 id hm
    · exact h2 id (hsub1 hm)
  · intro id hid
    rw [e2] at hid
    rw [e5]
    exact h2 id (hsub2 hid)
  · have hfun : (fun j => ((startQueuedTask s).records j).group)
        = fun j => (s.records j).group := funext (fun j => (e4 j).1)
    unfold activeGroups
    rw [e1, hfun, List.map_append]
    exact drainSpecWalk_groups_nodup (fun j => (s.records j).group) s.queuedTaskList
      (activeGroups s) h3
  · rw [e1]
    refine List.Nodup.append h4 (List.Nodup.sublist (drainSpecWalk_fst_sublist _ _ _) h5) ?_
    intro a ha hb
    exact h6 a ha (hsub1 hb)
  · rw [e2]
    exact List.Nodup.sublist (drainSpecWalk_snd_sublist _ _ _) h5
  · intro id hid
    rw [e1] at hid
    rw [e2]
    rcases List.mem_append.mp hid with hm | hm
    · intro hc
      exact h6 id hm (hsub2 hc)
    · exact hdisj id hm
  · intro id hid
    rw [e2] at hid
    have hnotfst : id ∉ (drainSpecWalk (activeGroups s)
        (fun j => (s.records j).group) s.queuedTaskList).1 :=
      fun hc => hdisj id hc hid
    rw [e3 id hnotfst]
    exact h7 id (hsub2 hid)

/-! Projection lemmas for Core::stopTask. -/

@[simp] theorem stopTask_activeTaskList (s : CoreState) (id : TaskId) :
    (stopTask s id).activeTaskList = s.activeTaskList := rfl

@[simp] theorem stopTask_queuedTaskList (s : CoreState) (id : TaskId) :
    (stopTask s id).queuedTaskList = s.queuedTaskList := rfl

@[simp] theorem stopTask_idCounter (s : CoreState) (id : TaskId) :
    (stopTask s id).idCounter = s.idCounter := rfl

@[simp] theorem stopTask_blockStartTask (s : CoreState) (id : TaskId) :
    (stopTask s id).blockStartTask = s.blockStartTask := rfl

@[simp] theorem stopTask_stopTimers (s : CoreState) (id : TaskId) :
    (stopTask s id).stopTimers = s.stopTimers := rfl

@[simp] theorem stopTask_events (s : CoreState) (id : TaskId) :
    (stopTask s id).events = s.events := rfl

@[simp] theorem stopTask_pendingChecks (s : CoreState) (id : TaskId) :
    (stopTask s id).pendingChecks = s.pendingChecks ++ [id] := rfl

theorem stopTask_records (s : CoreState) (id i : TaskId) :
    (stopTask s id).records i
      = if i = id then { s.records id with stopFlag := true } else s.records i := rfl

theorem stopTask_records_ne (s : CoreState) (id i : TaskId) (h : i ≠ id) :
    (stopTask s id).records i = s.records i := by
  rw [stopTask_records, if_neg h]

theorem stopTask_taskHash (s : CoreState) (id : TaskId) :
    (stopTask s id).taskHash = (hashBracket s.taskHash ((s.records id).type)).2 := by
  show (hashBracket s.taskHash (((setStopFlag s id true).records id).type)).2 = _
  rw [setStopFlag_records]
  simp

theorem wf_stopTask (s : CoreState) (id : TaskId) (hid : id ∉ s.queuedTaskList)
    (h : WF s) : WF (stopTask s id) := by
  obtain ⟨h1, h2, h3, h4, h5, h6, h7⟩ := h
  refine ⟨h1, h2, ?_, h4, h5, h6, ?_⟩
  · have hag : activeGroups (stopTask s id) = activeGroups s := by
      unfold activeGroups
      rw [stopTask_activeTaskList]
      refine List.map_congr_left (fun a _ => ?_)
      rw [stopTask_records]
      by_cases hEq : a = id
      · subst hEq; simp
      · rw [if_neg hEq]
    rw [show activeGroups (stopTask s id)
        = (stopTask s id).activeTaskList.map (fun j => ((stopTask s id).records j).group)
      from rfl] at hag
    show ((stopTask s id).activeTaskList.map
      (fun j => ((stopTask s id).records j).group)).Nodup
    rw [hag]
    exact h3
  · intro i hi
    have hne : i ≠ id := fun hc => hid (hc ▸ hi)
    rw [stopTask_records, if_neg hne]
    exact h7 i hi

/-- Removal of a record from the active list followed by the drain (the
common tail of the finish handler and of Core::terminateTask) preserves
well-formedness; the removed record must not be queued. -/
theorem wf_removeAndDrain (s : CoreState) (id : TaskId) (st : TaskState) (k : EventKind)
    (hid : id ∉ s.queuedTaskList) (h : WF s) :
    WF (startQueuedTask
      { emitEvent (setTaskState s id st) k id with
        activeTaskList :=
          (emitEvent (setTaskState s id st) k id).activeTaskList.filter (fun a => a != id) }) := by
  obtain ⟨h1, h2, h3, h4, h5, h6, h7⟩ := h
  refine wf_startQueuedTask _ ?_ ?_ ?_ ?_ ?_ ?_ ?_
  · intro a ha
    exact h1 a (List.mem_of_mem_filter ha)
  · intro a ha
    exact h2 a ha
  · show ((s.activeTaskList.filter (fun a => a != id)).map
      (fun j => ((setTaskState s id st).records j).group)).Nodup
    rw [List.map_congr_left (fun a _ => setTaskState_records_group s id a st)]
    exact List.Nodup.sublist (List.Sublist.map _ (List.filter_sublist _)) h3
  · exact List.Nodup.filter _ h4
  · exact h5
  · intro a ha
    exact h6 a (List.mem_of_mem_filter ha)
  · intro i hi
    have hne : i ≠ id := fun hc => hid (hc ▸ hi)
    show ((setTaskState s id st).records i).stopFlag = false ∧
      ((setTaskState s id st).records i).state = TaskState.Inactive
    rw [setTaskState_records, if_neg hne]
    exact h7 i hi

theorem wf_terminateTask (s : CoreState) (id : TaskId) (hid : id ∉ s.queuedTaskList)
    (h : WF s) : WF (terminateTask s id) :=
  wf_removeAndDrain s id TaskState.Terminated EventKind.Terminated hid h

theorem wf_finishTask (s : CoreState) (id : TaskId) (h : WF s) : WF (finishTask s id) := by
  unfold finishTask
  split
  · next hc =>
    have hmem : id ∈ s.activeTaskList := by simpa using hc
    exact wf_removeAndDrain s id TaskState.Finished EventKind.Finished
      (h.2.2.2.2.2.1 id hmem) h
  · exact h

/-! Characterization of Core::addTask. -/

theorem hashContains_of_lookup (h : List (TaskType × TaskInfo)) (t : TaskType)
    (info : TaskInfo) (hl : hashLookup h t = some info) : hashContains h t = true := by
  unfold hashLookup at hl
  obtain ⟨p, hp, _⟩ := Option.map_eq_some'.mp hl
  have hpred := @List.find?_some (TaskType × TaskInfo) (fun q => q.1 == t) p h hp
  exact List.any_eq_true.mpr ⟨p, List.mem_of_find?_eq_some hp, hpred⟩

theorem lookup_of_hashContains (h : List (TaskType × TaskInfo)) (t : TaskType)
    (hc : hashContains h t = true) : ∃ info, hashLookup h t = some info := by
  obtain ⟨p, hp, hpt⟩ := List.any_eq_true.mp hc
  have hsome : (h.find? (fun p => p.1 == t)).isSome := by
    rw [List.find?_isSome]
    exact ⟨p, hp, hpt⟩
  obtain ⟨p0, hp0⟩ := Option.isSome_iff_exists.mp hsome
  exact ⟨p0.2, by unfold hashLookup; rw [hp0]; rfl⟩

theorem addTask_not_registered (s : CoreState) (t : TaskType) (args : List Nat)
    (h : hashContains s.taskHash t = false) :
    addTask s t args = (Except.error CoreError.NotRegistered, s) := by
  unfold addTask
  rw [if_pos (by simp [h])]

theorem addTask_mismatch (s : CoreState) (t : TaskType) (args : List Nat) (info : TaskInfo)
    (hl : hashLookup s.taskHash t = some info) (hs : info.sig ≠ some args) :
    addTask s t args = (Except.error CoreError.ArgMismatch, s) := by
  unfold addTask
  rw [if_neg (by simp [hashContains_of_lookup s.taskHash t info hl]), hl]
  simp only [Option.getD_some]
  rw [if_pos hs]

theorem addTask_success (s : CoreState) (t : TaskType) (args : List Nat) (info : TaskInfo)
    (hl : hashLookup s.taskHash t = some info) (hs : info.sig = some args) :
    addTask s t args
      = ((Except.ok () : Except CoreError Unit),
         let s1 : CoreState :=
           { s with idCounter := s.idCounter + 1,
                    records := fun i => if i = s.idCounter
                      then ⟨t, info.group, false, TaskState.Inactive⟩ else s.records i }
         if !(s1.activeTaskList.any (fun aid => (s1.records aid).group == info.group))
             && !s1.blockStartTask
         then startTask s1 s.idCounter
         else { s1 with queuedTaskList := s1.queuedTaskList ++ [s.idCounter] }) := by
  unfold addTask
  rw [if_neg (by simp [hashContains_of_lookup s.taskHash t info hl]), hl]
  simp only [Option.getD_some]
  rw [if_neg (by simp [hs])]
  split <;> rfl

theorem wf_addTask (s : CoreState) (t : TaskType) (args : List Nat) (h : WF s) :
    WF (addTask s t args).2 := by
  obtain ⟨h1, h2, h3, h4, h5, h6, h7⟩ := h
  rcases hreg : hashContains s.taskHash t with _ | _
  · rw [addTask_not_registered s t args hreg]
    exact ⟨h1, h2, h3, h4, h5, h6, h7⟩
  · obtain ⟨info, hl⟩ := lookup_of_hashContains s.taskHash t hreg
    by_cases hsig : info.sig = some args
    · rw [addTask_success s t args info hl hsig]
      set s1 : CoreState :=
        { s with idCounter := s.idCounter + 1,
                 records := fun i => if i = s.idCounter
                   then ⟨t, info.group, false, TaskState.Inactive⟩ else s.records i } with hs1
      have hrecOld : ∀ i, i < s.idCounter → s1.records i = s.records i := by
        intro i hi
        show (if i = s.idCounter then _ else s.records i) = s.records i
        rw [if_neg (Nat.ne_of_lt hi)]
      have hrecNew : s1.records s.idCounter = ⟨t, info.group, false, TaskState.Inactive⟩ := by
        show (if s.idCounter = s.idCounter then _ else _) = _
        rw [if_pos rfl]
      have hgroups : activeGroups s1 = activeGroups s :=
        List.map_congr_left (fun a ha => by rw [hrecOld a (h1 a ha)])
      by_cases hstart :
          (!(s1.activeTaskList.any (fun aid => (s1.records aid).group == info.group))
            && !s1.blockStartTask) = true
      · show WF (if _ then startTask s1 s.idCounter else _)
        rw [if_pos hstart]
        have hnog : ∀ a ∈ s.activeTaskList, (s.records a).group ≠ info.group := by
          intro a ha hEq
          have hany := (Bool.and_eq_true_iff.mp hstart).1
          rw [Bool.not_eq_true', List.any_eq_false] at hany
          exact hany a ha (by rw [hrecOld a (h1 a ha), hEq]; exact beq_self_eq_true _)
        refine ⟨?_, ?_, ?_, ?_, h5, ?_, ?_⟩
        · intro a ha
          rw [startTask_activeTaskList] at ha
          rw [startTask_idCounter]
          rcases List.mem_append.mp ha with hm | hm
          · exact Nat.lt_succ_of_lt (h1 a hm)
          · rw [List.mem_singleton.mp hm]
            exact Nat.lt_succ_self _
        · intro a ha
          rw [startTask_queuedTaskList] at ha
          rw [startTask_idCounter]
          exact Nat.lt_succ_of_lt (h2 a ha)
        · rw [activeGroups_startTask, hgroups, hrecNew]
          refine List.Nodup.append h3 (List.nodup_singleton _) ?_
          intro g hg hg2
          rw [List.mem_singleton.mp hg2] at hg
          obtain ⟨a, ha, hEq⟩ := List.mem_map.mp hg
          exact hnog a ha hEq
        · rw [startTask_activeTaskList]
          refine List.Nodup.append h4 (List.nodup_singleton _) ?_
          intro a ha ha2
          rw [List.mem_singleton.mp ha2] at ha
          exact Nat.lt_irrefl _ (h1 _ ha)
        · intro a ha
          rw [startTask_activeTaskList] at ha
          rw [startTask_queuedTaskList]
          rcases List.mem_append.mp ha with hm | hm
          · exact h6 a hm
          · rw [List.mem_singleton.mp hm]
            intro hc
            exact Nat.lt_irrefl _ (h2 _ hc)
        · intro i hi
          rw [startTask_queuedTaskList] at hi
          have hne : i ≠ s.idCounter := Nat.ne_of_lt (h2 i hi)
          rw [startTask_records_ne s1 s.idCounter i hne, hrecOld i (h2 i hi)]
          exact h7 i hi
      · show WF (if _ then _ else { s1 with queuedTaskList := s1.queuedTaskList ++ [s.idCounter] })
        rw [if_neg hstart]
        refine ⟨?_, ?_, ?_, h4, ?_, ?_, ?_⟩
        · intro a ha
          exact Nat.lt_succ_of_lt (h1 a ha)
        · intro a ha
          rcases List.mem_append.mp ha with hm | hm
          · exact Nat.lt_succ_of_lt (h2 a hm)
          · rw [List.mem_singleton.mp hm]
            exact Nat.lt_succ_self _
        · show (s.activeTaskList.map (fun j => (s1.records j).group)).Nodup
          rw [show s.activeTaskList.map (fun j => (s1.records j).group) = activeGroups s from
            List.map_congr_left (fun a ha => by rw [hrecOld a (h1 a ha)])]
          exact h3
        · refine List.Nodup.append h5 (List.nodup_singleton _) ?_
          intro a ha ha2
          rw [List.mem_singleton.mp ha2] at ha
          exact Nat.lt_irrefl _ (h2 _ ha)
        · intro a ha
          intro hc
          rcases List.mem_append.mp hc with hm | hm
          · exact h6 a ha hm
          · rw [List.mem_singleton.mp hm] at ha
            exact Nat.lt_irrefl _ (h1 _ ha)
        · intro i hi
          rcases List.mem_append.mp hi with hm | hm
          · rw [hrecOld i (h2 i hm)]
            exact h7 i hm
          · rw [List.mem_singleton.mp hm, hrecNew]
            exact ⟨rfl, rfl⟩
    · rw [addTask_mismatch s t args info hl hsig]
      exact ⟨h1, h2, h3, h4, h5, h6, h7⟩

/-! Well-formedness of the remaining operations. -/

theorem wf_registerTask (s : CoreState) (t : TaskType) (sig : List Nat) (g : TaskGroup)
    (tmo : TaskStopTimeout) (h : WF s) : WF (registerTask s t sig g tmo) := by
  unfold registerTask
  split
  · exact h
  · exact wf_congr s _ rfl rfl rfl rfl h

theorem wf_unregisterTask (s : CoreState) (t : TaskType) (h : WF s) :
    WF (unregisterTask s t).2 :=
  wf_congr s _ rfl rfl rfl rfl h

theorem wf_deferredStopCheck (s : CoreState) (id : TaskId) (h : WF s) :
    WF (deferredStopCheck s id) := by
  unfold deferredStopCheck
  split
  · dsimp only
    split
    · next hact =>
      refine wf_terminateTask _ id ?_ (wf_congr s _ rfl rfl rfl rfl h)
      intro hq
      have hstate := (h.2.2.2.2.2.2 id hq).2
      rw [show ({ s with pendingChecks := s.pendingChecks.erase id } : CoreState).records
        = s.records from rfl, hstate] at hact
      exact TaskState.noConfusion hact
    · next => exact wf_congr s _ rfl rfl rfl rfl h
  · exact h

theorem wf_terminateTaskById (s : CoreState) (id : TaskId) (h : WF s) :
    WF (terminateTaskById s id) := by
  unfold terminateTaskById
  cases hfind : activeTaskById s id with
  | none => exact h
  | some tid =>
    unfold activeTaskById at hfind
    have hmem := List.mem_of_find?_eq_some hfind
    exact wf_terminateTask s tid (h.2.2.2.2.2.1 tid hmem) h

theorem wf_stopTaskById (s : CoreState) (id : TaskId) (h : WF s) :
    WF (stopTaskById s id) := by
  unfold stopTaskById
  cases hfind : activeTaskById s id with
  | none => exact h
  | some tid =>
    unfold activeTaskById at hfind
    have hmem := List.mem_of_find?_eq_some hfind
    exact wf_stopTask s tid (h.2.2.2.2.2.1 tid hmem) h

theorem wf_stopTaskByType (s : CoreState) (t : TaskType) (h : WF s) :
    WF (stopTaskByType s t) := by
  unfold stopTaskByType
  cases hfind : activeTaskByType s t with
  | none => exact h
  | some tid =>
    unfold activeTaskByType at hfind
    have hmem := List.mem_of_find?_eq_some hfind
    exact wf_stopTask s tid (h.2.2.2.2.2.1 tid hmem) h

theorem wf_stopTaskByGroup (s : CoreState) (g : TaskGroup) (h : WF s) :
    WF (stopTaskByGroup s g) := by
  unfold stopTaskByGroup
  cases hfind : activeTaskByGroup s g with
  | none => exact h
  | some tid =>
    unfold activeTaskByGroup at hfind
    have hmem := List.mem_of_find?_eq_some hfind
    exact wf_stopTask s tid (h.2.2.2.2.2.1 tid hmem) h

theorem wf_foldl_stopTask (l : List TaskId) : ∀ s : CoreState,
    (∀ x ∈ l, x ∉ s.queuedTaskList) → WF s → WF (l.foldl stopTask s) := by
  induction l with
  | nil => intro s _ h; exact h
  | cons x rest ih =>
    intro s hsub h
    rw [List.foldl_cons]
    refine ih (stopTask s x) ?_ (wf_stopTask s x (hsub x (List.mem_cons_self x rest)) h)
    intro y hy
    rw [stopTask_queuedTaskList]
    exact hsub y (List.mem_cons_of_mem x hy)

theorem wf_stopTasks (s : CoreState) (h : WF s) : WF (stopTasks s) := by
  unfold stopTasks
  refine wf_congr _ _ rfl rfl rfl rfl ?_
  refine wf_foldl_stopTask _ _ ?_ (wf_congr s _ rfl rfl rfl rfl h)
  intro x hx
  exact h.2.2.2.2.2.1 x hx

theorem wf_stopTasksTimerFire (s : CoreState) (h : WF s) : WF (stopTasksTimerFire s) := by
  unfold stopTasksTimerFire
  split
  · exact h
  · split
    · exact wf_congr s _ rfl rfl rfl rfl h
    · exact h

theorem wf_step (s : CoreState) (op : Op) (h : WF s) : WF (step s op) := by
  cases op with
  | register t sig g tmo => exact wf_registerTask s t sig g tmo h
  | unregister t => exact wf_unregisterTask s t h
  | add t args => exact wf_addTask s t args h
  | finish id => exact wf_finishTask s id h
  | stopById id => exact wf_stopTaskById s id h
  | stopByType t => exact wf_stopTaskByType s t h
  | stopByGroup g => exact wf_stopTaskByGroup s g h
  | termById id => exact wf_terminateTaskById s id h
  | check id => exact wf_deferredStopCheck s id h
  | stopAll => exact wf_stopTasks s h
  | timerFire => exact wf_stopTasksTimerFire s h

theorem wf_run (ops : List Op) : ∀ s : CoreState, WF s → WF (run s ops) := by
  induction ops with
  | nil => intro s h; exact h
  | cons op rest ih =>
    intro s h
    exact ih (step s op) (wf_step s op h)

theorem wf_initState : WF initState := by
  refine ⟨?_, ?_, ?_, ?_, ?_, ?_, ?_⟩ <;> simp [initState, activeGroups]

/-- Every state produced by a legal operation sequence is well-formed. -/
theorem reachable_wf (s : CoreState) (h : Reachable s) : WF s := by
  obtain ⟨ops, hops⟩ := h
  rw [← hops]
  exact wf_run ops initState wf_initState

/-! Characterization of Core::stopTasks. -/

theorem foldl_stopTask_spec (l : List TaskId) : ∀ s : CoreState,
    (l.foldl stopTask s).activeTaskList = s.activeTaskList ∧
    (l.foldl stopTask s).queuedTaskList = s.queuedTaskList ∧
    (l.foldl stopTask s).idCounter = s.idCounter ∧
    (l.foldl stopTask s).blockStartTask = s.blockStartTask ∧
    (l.foldl stopTask s).stopTimers = s.stopTimers ∧
    (l.foldl stopTask s).events = s.events ∧
    (l.foldl stopTask s).pendingChecks = s.pendingChecks ++ l ∧
    (∀ i, (l.foldl stopTask s).records i
      = if i ∈ l then { s.records i with stopFlag := true } else s.records i) := by
  induction l with
  | nil =>
    intro s
    exact ⟨rfl, rfl, rfl, rfl, rfl, rfl, by simp, fun i => by simp⟩
  | cons x rest ih =>
    intro s
    rw [List.foldl_cons]
    obtain ⟨g1, g2, g3, g4, g5, g6, g7, g8⟩ := ih (stopTask s x)
    refine ⟨g1, g2, g3, g4, g5, g6, ?_, ?_⟩
    · rw [g7, stopTask_pendingChecks, List.append_assoc]
      rfl
    · intro i
      rw [g8 i, stopTask_records]
      by_cases hx : i = x
      · subst hx
        by_cases hr : i ∈ rest <;> simp [hr]
      · by_cases hr : i ∈ rest <;> simp [List.mem_cons, hx, hr]

theorem hashBracket_fst (h : List (TaskType × TaskInfo)) (ty : TaskType) :
    (hashBracket h ty).1 = (hashLookup h ty).getD defaultTaskInfo := by
  unfold hashBracket
  cases hl : hashLookup h ty <;> rfl

theorem hashBracket_preserves_stopTimeout (h : List (TaskType × TaskInfo)) (ty t2 : TaskType) :
    ((hashLookup (hashBracket h ty).2 t2).getD defaultTaskInfo).stopTimeout
      = ((hashLookup h t2).getD defaultTaskInfo).stopTimeout := by
  unfold hashBracket
  cases hl : hashLookup h ty
  · show ((hashLookup (h ++ [(ty, defaultTaskInfo)]) t2).getD defaultTaskInfo).stopTimeout = _
    unfold hashLookup at hl ⊢
    rw [List.find?_append]
    cases hl2 : h.find? (fun p => p.1 == t2)
    · by_cases hEq : (ty == t2) = true
      · simp [List.find?, hEq, defaultTaskInfo]
      · simp [List.find?, hEq]
    · simp
  · rfl

/-- The maximum stop timeout over the active records' descriptors, as
computed by the first loop of Core::stopTasks (an absent descriptor
contributes the value-initialized timeout 0). -/
def maxStopTimeout (s : CoreState) : TaskStopTimeout :=
  s.activeTaskList.foldl
    (fun m id =>
      max m (((hashLookup s.taskHash (s.records id).type).getD defaultTaskInfo).stopTimeout))
    0

theorem maxLoop_fst_eq (H : List (TaskType × TaskInfo)) (g : TaskId → TaskType)
    (l : List TaskId) : ∀ (h0 : List (TaskType × TaskInfo)) (m : TaskStopTimeout),
    (∀ ty, ((hashLookup h0 ty).getD defaultTaskInfo).stopTimeout
      = ((hashLookup H ty).getD defaultTaskInfo).stopTimeout) →
    (l.foldl (fun acc id =>
        let lr := hashBracket acc.2 (g id)
        (max acc.1 lr.1.stopTimeout, lr.2)) (m, h0)).1
      = l.foldl (fun m2 id =>
          max m2 (((hashLookup H (g id)).getD defaultTaskInfo).stopTimeout)) m := by
  induction l with
  | nil => intro h0 m _; rfl
  | cons x rest ih =>
    intro h0 m hR
    rw [List.foldl_cons, List.foldl_cons]
    have h1 : (hashBracket h0 (g x)).1.stopTimeout
        = ((hashLookup H (g x)).getD defaultTaskInfo).stopTimeout := by
      rw [hashBracket_fst]
      exact hR (g x)
    show (rest.foldl _ (max m (hashBracket h0 (g x)).1.stopTimeout, (hashBracket h0 (g x)).2)).1 = _
    rw [h1]
    exact ih (hashBracket h0 (g x)).2 _
      (fun ty => (hashBracket_preserves_stopTimeout h0 (g x) ty).trans (hR ty))

theorem stopTasks_parts (s : CoreState) :
    (stopTasks s).blockStartTask = true ∧
    (stopTasks s).activeTaskList = s.activeTaskList ∧
    (stopTasks s).queuedTaskList = s.queuedTaskList ∧
    (stopTasks s).pendingChecks = s.pendingChecks ++ s.activeTaskList ∧
    (stopTasks s).stopTimers = s.stopTimers ++ [maxStopTimeout s] ∧
    (stopTasks s).events = s.events ∧
    (stopTasks s).idCounter = s.idCounter ∧
    (∀ i, (stopTasks s).records i = if i ∈ s.activeTaskList
        then { s.records i with stopFlag := true } else s.records i) := by
  unfold stopTasks
  obtain ⟨g1, g2, g3, g4, g5, g6, g7, g8⟩ :=
    foldl_stopTask_spec s.activeTaskList
      { s with blockStartTask := true,
               taskHash := (s.activeTaskList.foldl
                 (fun (acc : TaskStopTimeout × List (TaskType × TaskInfo)) id =>
                   let lr := hashBracket acc.2 (s.records id).type
                   (max acc.1 lr.1.stopTimeout, lr.2)) (0, s.taskHash)).2 }
  refine ⟨g4, g1, g2, ?_, ?_, g6, g3, g8⟩
  · exact g7
  · show (List.foldl stopTask
        { s with blockStartTask := true,
                 taskHash := (s.activeTaskList.foldl
                   (fun (acc : TaskStopTimeout × List (TaskType × TaskInfo)) id =>
                     let lr := hashBracket acc.2 (s.records id).type
                     (max acc.1 lr.1.stopTimeout, lr.2)) (0, s.taskHash)).2 }
        s.activeTaskList).stopTimers
      ++ [(s.activeTaskList.foldl
            (fun (acc : TaskStopTimeout × List (TaskType × TaskInfo)) id =>
              let lr := hashBracket acc.2 (s.records id).type
              (max acc.1 lr.1.stopTimeout, lr.2)) (0, s.taskHash)).1]
      = s.stopTimers ++ [maxStopTimeout s]
    rw [g5, maxLoop_fst_eq s.taskHash (fun id => (s.records id).type) s.activeTaskList
      s.taskHash 0 (fun ty => rfl)]
    rfl

/-! Event-ordering lemmas for the finish handler and Core::terminateTask:
the lifecycle event is emitted while the record is still in the active list;
removal happens only afterwards. -/

theorem finishTask_events_spec (s : CoreState) (id : TaskId)
    (ha : id ∈ s.activeTaskList) (hq : id ∉ s.queuedTaskList) :
    ∃ tail, (finishTask s id).events
        = s.events ++ ⟨EventKind.Finished, id, (s.records id).type, s.activeTaskList⟩ :: tail ∧
      (∀ e ∈ tail, e.kind = EventKind.Started) ∧
      id ∉ (finishTask s id).activeTaskList := by
  unfold finishTask
  rw [if_pos (by simpa using ha)]
  set s3 : CoreState :=
    { emitEvent (setTaskState s id TaskState.Finished) EventKind.Finished id with
      activeTaskList := (emitEvent (setTaskState s id TaskState.Finished)
        EventKind.Finished id).activeTaskList.filter (fun a => a != id) } with hs3
  obtain ⟨e1, e2, e3, e4, e5, e6, e7, e8, e9, tail, e10, e11⟩ := startQueuedTask_spec s3
  refine ⟨tail, ?_, e11, ?_⟩
  · rw [e10]
    have hev : s3.events
        = s.events ++ [⟨EventKind.Finished, id, (s.records id).type, s.activeTaskList⟩] := by
      show (setTaskState s id TaskState.Finished).events
          ++ [⟨EventKind.Finished, id,
               ((setTaskState s id TaskState.Finished).records id).type,
               (setTaskState s id TaskState.Finished).activeTaskList⟩] = _
      rw [setTaskState_events, setTaskState_records_type, setTaskState_activeTaskList]
    rw [hev, List.append_assoc]
    rfl
  · rw [e1]
    intro hc
    rcases List.mem_append.mp hc with hm | hm
    · have hm2 : id ∈ List.filter (fun a => a != id)
          (emitEvent (setTaskState s id TaskState.Finished)
            EventKind.Finished id).activeTaskList := hm
      have := (List.mem_filter.mp hm2).2
      simp at this
    · have hsub := (drainSpecWalk_fst_sublist (fun j => (s3.records j).group)
        s3.queuedTaskList (activeGroups s3)).subset hm
      exact hq (by simpa using hsub)

theorem terminateTask_events_spec (s : CoreState) (id : TaskId)
    (_ha : id ∈ s.activeTaskList) (hq : id ∉ s.queuedTaskList) :
    ∃ tail, (terminateTask s id).events
        = s.events ++ ⟨EventKind.Terminated, id, (s.records id).type, s.activeTaskList⟩ :: tail ∧
      (∀ e ∈ tail, e.kind = EventKind.Started) ∧
      id ∉ (terminateTask s id).activeTaskList := by
  unfold terminateTask
  set s3 : CoreState :=
    { emitEvent (setTaskState s id TaskState.Terminated) EventKind.Terminated id with
      activeTaskList := (emitEvent (setTaskState s id TaskState.Terminated)
        EventKind.Terminated id).activeTaskList.filter (fun a => a != id) } with hs3
  obtain ⟨e1, e2, e3, e4, e5, e6, e7, e8, e9, tail, e10, e11⟩ := startQueuedTask_spec s3
  refine ⟨tail, ?_, e11, ?_⟩
  · rw [e10]
    have hev : s3.events
        = s.events ++ [⟨EventKind.Terminated, id, (s.records id).type, s.activeTaskList⟩] := by
      show (setTaskState s id TaskState.Terminated).events
          ++ [⟨EventKind.Terminated, id,
               ((setTaskState s id TaskState.Terminated).records id).type,
               (setTaskState s id TaskState.Terminated).activeTaskList⟩] = _
      rw [setTaskState_events, setTaskState_records_type, setTaskState_activeTaskList]
    rw [hev, List.append_assoc]
    rfl
  · rw [e1]
    intro hc
    rcases List.mem_append.mp hc with hm | hm
    · have hm2 : id ∈ List.filter (fun a => a != id)
          (emitEvent (setTaskState s id TaskState.Terminated)
            EventKind.Terminated id).activeTaskList := hm
      have := (List.mem_filter.mp hm2).2
      simp at this
    · have hsub := (drainSpecWalk_fst_sublist (fun j => (s3.records j).group)
        s3.queuedTaskList (activeGroups s3)).subset hm
      exact hq (by simpa using hsub)

/-! Characterization of the deferred stop check. -/

theorem deferredStopCheck_eq (s : CoreState) (id : TaskId)
    (h : s.pendingChecks.contains id = true) :
    deferredStopCheck s id
      = (match (s.records id).state with
         | TaskState.Active =>
             terminateTask { s with pendingChecks := s.pendingChecks.erase id } id
         | _ => { s with pendingChecks := s.pendingChecks.erase id }) := by
  unfold deferredStopCheck
  rw [if_pos h]

theorem stopTasksTimerFire_frame (t : CoreState) :
    (stopTasksTimerFire t).activeTaskList = t.activeTaskList ∧
    (stopTasksTimerFire t).queuedTaskList = t.queuedTaskList ∧
    (stopTasksTimerFire t).records = t.records ∧
    (stopTasksTimerFire t).events = t.events ∧
    (stopTasksTimerFire t).pendingChecks = t.pendingChecks ∧
    (stopTasksTimerFire t).idCounter = t.idCounter ∧
    (stopTasksTimerFire t).taskHash = t.taskHash := by
  unfold stopTasksTimerFire
  split
  · exact ⟨rfl, rfl, rfl, rfl, rfl, rfl, rfl⟩
  · split
    · exact ⟨rfl, rfl, rfl, rfl, rfl, rfl, rfl⟩
    · exact ⟨rfl, rfl, rfl, rfl, rfl, rfl, rfl⟩

theorem stopTasksTimerFire_clears (t : CoreState) (h1 : t.stopTimers ≠ [])
    (h2 : t.activeTaskList = []) : (stopTasksTimerFire t).blockStartTask = false := by
  unfold stopTasksTimerFire
  cases ht : t.stopTimers with
  | nil => exact absurd ht h1
  | cons a rest =>
    have hidle : isIdle t = true := by
      unfold isIdle
      rw [h2]
      rfl
    dsimp only
    rw [if_pos hidle]

/-! Concrete sample states used by the witnesses. -/

/-- One registered type, one dispatched task (id 0), still active. -/
def sampleActive : CoreState := run initState [Op.register 1 [] 0 1000, Op.add 1 []]

/-- Task 0 is active in group 0 and task 1 is queued behind it in group 0. -/
def sampleQueued : CoreState := run initState
  [Op.register 1 [] 0 1000, Op.register 2 [] 0 500, Op.add 1 [], Op.add 2 []]

/-- Task 0 was stopped cooperatively and then finished before the deferred
check fired, leaving the armed check behind. -/
def sampleStopped : CoreState := run initState
  [Op.register 1 [] 0 1000, Op.add 1 [], Op.stopById 0, Op.finish 0]

/-- Three types in two groups, a queued task started by the drain after the
first finish. -/
def sampleDrained : CoreState := run initState
  [Op.register 1 [] 0 1000, Op.register 2 [] 1 1000, Op.register 3 [] 0 1000,
   Op.add 1 [], Op.add 2 [], Op.add 3 [], Op.finish 0]

/-! The claims. -/

/-- C1: Group-exclusion invariant: in every state reached by a legal
sequence of engine operations (register, unregister, addTask, finish
callbacks, the stop/terminate API, deferred checks, stopTasks and its timer)
no two records of the active list share a group: every group appears at most
once in `activeTaskList`. -/
theorem claim_C1_group_exclusion (s : CoreState) (h : Reachable s) :
    (activeGroups s).Nodup :=
  (reachable_wf s h).2.2.1

theorem claim_C1_group_exclusion_witness : (activeGroups sampleDrained).Nodup :=
  claim_C1_group_exclusion sampleDrained ⟨_, rfl⟩

/-- C2 is right about the record but wrong about the return: Core::addTask
is declared void (it returns nothing; `Except.ok ()` is the normal return),
so no caller can receive the new id from the dispatch call.  At this
concrete input the dispatch succeeds: the record is created under the fresh
id 0 drawn from the monotonic counter (which advances to 1), carries the
requested type, and is started — the id reaches the outside world only
inside the Started event — while the call's own result carries no id. -/
theorem claim_C2_addTask_returns_no_id :
    (addTask (run initState [Op.register 3 [5] 2 100]) 3 [5]).1 = Except.ok () ∧
    (run initState [Op.register 3 [5] 2 100]).idCounter = 0 ∧
    (addTask (run initState [Op.register 3 [5] 2 100]) 3 [5]).2.idCounter = 1 ∧
    0 ∈ (addTask (run initState [Op.register 3 [5] 2 100]) 3 [5]).2.activeTaskList ∧
    ((addTask (run initState [Op.register 3 [5] 2 100]) 3 [5]).2.records 0).type = 3 ∧
    ((addTask (run initState [Op.register 3 [5] 2 100]) 3 [5]).2.records 0).group = 2 ∧
    (addTask (run initState [Op.register 3 [5] 2 100]) 3 [5]).2.events
      = [⟨EventKind.Started, 0, 3, [0]⟩] :=
  ⟨rfl, by decide⟩

/-- C3: a single drain (Core::startQueuedTask) realises exactly one spec
walk of the queued list: front-to-back, each record whose group is held by
no currently-active record — counting the records started earlier in the
same walk — is removed from the queue and started (appended to the active
list in walk order), every other record is skipped, and the skipped records
keep their relative order (the resulting queue is a sublist of the old
one). -/
theorem claim_C3_drain_semantics (s : CoreState) :
    (startQueuedTask s).activeTaskList
      = s.activeTaskList
        ++ (drainSpecWalk (activeGroups s) (fun j => (s.records j).group) s.queuedTaskList).1 ∧
    (startQueuedTask s).queuedTaskList
      = (drainSpecWalk (activeGroups s) (fun j => (s.records j).group) s.queuedTaskList).2 ∧
    List.Sublist (startQueuedTask s).queuedTaskList s.queuedTaskList ∧
    List.Sublist (drainSpecWalk (activeGroups s) (fun j => (s.records j).group)
      s.queuedTaskList).1 s.queuedTaskList := by
  obtain ⟨e1, e2, _⟩ := startQueuedTask_spec s
  refine ⟨e1, e2, ?_, drainSpecWalk_fst_sublist _ _ _⟩
  rw [e2]
  exact drainSpecWalk_snd_sublist _ _ _

/-- C4 as stated is false of the code: in this concrete run the Finished
event of task 0 carries an active-list snapshot that still contains the
record — the finish handler emits `finishedTask` before `removeAll`, so a
query made while handling the event still sees the record (isIdle would be
false), contradicting removal-before-event. -/
theorem claim_C4_removal_before_event_counterexample :
    ∃ e ∈ (run initState [Op.register 1 [] 0 1000, Op.add 1 [], Op.finish 0]).events,
      e.kind = EventKind.Finished ∧ e.id = 0 ∧ 0 ∈ e.activeAtEmit ∧
      e.activeAtEmit = [0] := by
  decide

/-- C4 amended: for a task that finishes or is terminated, the
Finished/Terminated event is emitted BEFORE the record is removed from the
active list — the event's active snapshot still contains the id, so a query
made while handling the event still sees the record; the removal (and the
ensuing drain, which emits only Started events) happens before the handler
returns, so immediately afterwards the record is no longer active. -/
theorem claim_C4_event_before_removal (s : CoreState) (id : TaskId)
    (ha : id ∈ s.activeTaskList) (hq : id ∉ s.queuedTaskList) :
    (∃ tail, (finishTask s id).events
        = s.events ++ ⟨EventKind.Finished, id, (s.records id).type, s.activeTaskList⟩ :: tail ∧
      (∀ e ∈ tail, e.kind = EventKind.Started) ∧
      id ∈ (⟨EventKind.Finished, id, (s.records id).type, s.activeTaskList⟩
        : Event).activeAtEmit ∧
      id ∉ (finishTask s id).activeTaskList) ∧
    (∃ tail, (terminateTask s id).events
        = s.events ++ ⟨EventKind.Terminated, id, (s.records id).type, s.activeTaskList⟩ :: tail ∧
      (∀ e ∈ tail, e.kind = EventKind.Started) ∧
      id ∈ (⟨EventKind.Terminated, id, (s.records id).type, s.activeTaskList⟩
        : Event).activeAtEmit ∧
      id ∉ (terminateTask s id).activeTaskList) := by
  obtain ⟨t1, f1, f2, f3⟩ := finishTask_events_spec s id ha hq
  obtain ⟨t2, g1, g2, g3⟩ := terminateTask_events_spec s id ha hq
  exact ⟨⟨t1, f1, f2, ha, f3⟩, ⟨t2, g1, g2, ha, g3⟩⟩

theorem claim_C4_event_before_removal_witness :
    0 ∈ sampleActive.activeTaskList ∧
    0 ∉ sampleActive.queuedTaskList ∧
    (∃ tail, (finishTask sampleActive 0).events
        = sampleActive.events
          ++ ⟨EventKind.Finished, 0, (sampleActive.records 0).type,
              sampleActive.activeTaskList⟩ :: tail ∧
      (∀ e ∈ tail, e.kind = EventKind.Started) ∧
      0 ∈ (⟨EventKind.Finished, 0, (sampleActive.records 0).type,
            sampleActive.activeTaskList⟩ : Event).activeAtEmit ∧
      0 ∉ (finishTask sampleActive 0).activeTaskList) :=
  ⟨by decide, by decide,
    (claim_C4_event_before_removal sampleActive 0 (by decide) (by decide)).1⟩

/-- C5: when the deferred check armed by Core::stopTask fires it terminates
the record iff the record's state is still Active; on Finished or Terminated
(or Inactive) it only consumes the armed check — records, lists and events
are untouched — so a callable that returned after the stop flag was set but
before the timeout keeps its Finished event and never receives a Terminated
one.  The cooperative stop itself only sets the flag and leaves the state
alone. -/
theorem claim_C5_deferred_check (s : CoreState) (id : TaskId)
    (h : s.pendingChecks.contains id = true) :
    ((s.records id).state = TaskState.Active →
      deferredStopCheck s id
        = terminateTask { s with pendingChecks := s.pendingChecks.erase id } id) ∧
    ((s.records id).state ≠ TaskState.Active →
      deferredStopCheck s id = { s with pendingChecks := s.pendingChecks.erase id }) ∧
    ((s.records id).state = TaskState.Finished →
      (deferredStopCheck s id).events = s.events ∧
      (deferredStopCheck s id).records id = s.records id ∧
      (deferredStopCheck s id).activeTaskList = s.activeTaskList ∧
      (deferredStopCheck s id).queuedTaskList = s.queuedTaskList) ∧
    ((stopTask s id).records id).state = (s.records id).state ∧
    ((stopTask s id).records id).stopFlag = true := by
  refine ⟨?_, ?_, ?_, ?_, ?_⟩
  · intro hact
    rw [deferredStopCheck_eq s id h, hact]
  · intro hne
    rw [deferredStopCheck_eq s id h]
    cases hst : (s.records id).state
    · rfl
    · exact absurd hst hne
    · rfl
    · rfl
  · intro hfin
    rw [deferredStopCheck_eq s id h, hfin]
    exact ⟨rfl, rfl, rfl, rfl⟩
  · rw [stopTask_records, if_pos rfl]
  · rw [stopTask_records, if_pos rfl]

theorem claim_C5_deferred_check_witness :
    sampleStopped.pendingChecks.contains 0 = true ∧
    (sampleStopped.records 0).state = TaskState.Finished ∧
    (deferredStopCheck sampleStopped 0).events = sampleStopped.events ∧
    (deferredStopCheck sampleStopped 0).records 0 = sampleStopped.records 0 :=
  ⟨by decide, by decide,
    ((claim_C5_deferred_check sampleStopped 0 (by decide)).2.2.1 (by decide)).1,
    ((claim_C5_deferred_check sampleStopped 0 (by decide)).2.2.1 (by decide)).2.1⟩

/-- C6: Core::stopTasks sets blockStartTask and leaves the active and
queued lists alone; it requests a cooperative stop of every active record
(each stop flag is set and the deferred checks are armed in active-list
order), and arms its repeating timer with the maximum stopTimeout among the
active records' descriptors.  A timer firing that finds the engine idle
clears blockStartTask without touching anything else; in particular with no
active tasks the window ends with admission restored and nothing stopped. -/
theorem claim_C6_stopTasks_drain (s : CoreState) :
    (stopTasks s).blockStartTask = true ∧
    (stopTasks s).activeTaskList = s.activeTaskList ∧
    (stopTasks s).queuedTaskList = s.queuedTaskList ∧
    (∀ id ∈ s.activeTaskList, ((stopTasks s).records id).stopFlag = true) ∧
    (stopTasks s).pendingChecks = s.pendingChecks ++ s.activeTaskList ∧
    (stopTasks s).stopTimers = s.stopTimers ++ [maxStopTimeout s] ∧
    (∀ t : CoreState, t.stopTimers ≠ [] → t.activeTaskList = [] →
      (stopTasksTimerFire t).blockStartTask = false ∧
      (stopTasksTimerFire t).records = t.records ∧
      (stopTasksTimerFire t).events = t.events) ∧
    (s.activeTaskList = [] →
      (stopTasksTimerFire (stopTasks s)).blockStartTask = false ∧
      (stopTasksTimerFire (stopTasks s)).records = s.records ∧
      (stopTasksTimerFire (stopTasks s)).events = s.events ∧
      (stopTasksTimerFire (stopTasks s)).activeTaskList = [] ∧
      (stopTasksTimerFire (stopTasks s)).queuedTaskList = s.queuedTaskList) := by
  obtain ⟨p1, p2, p3, p4, p5, p6, p7, p8⟩ := stopTasks_parts s
  refine ⟨p1, p2, p3, ?_, p4, p5, ?_, ?_⟩
  · intro id hid
    rw [p8 id, if_pos hid]
  · intro t2 h1 h2
    exact ⟨stopTasksTimerFire_clears t2 h1 h2, (stopTasksTimerFire_frame t2).2.2.1,
      (stopTasksTimerFire_frame t2).2.2.2.1⟩
  · intro hemp
    have hact : (stopTasks s).activeTaskList = [] := p2.trans hemp
    have htim : (stopTasks s).stopTimers ≠ [] := by
      rw [p5]
      simp
    have hrec : (stopTasks s).records = s.records := by
      funext i
      rw [p8 i, if_neg (by rw [hemp]; exact List.not_mem_nil i)]
    refine ⟨stopTasksTimerFire_clears (stopTasks s) htim hact,
      (stopTasksTimerFire_frame (stopTasks s)).2.2.1.trans hrec,
      (stopTasksTimerFire_frame (stopTasks s)).2.2.2.1.trans p6,
      (stopTasksTimerFire_frame (stopTasks s)).1.trans hact,
      (stopTasksTimerFire_frame (stopTasks s)).2.1.trans p3⟩

theorem claim_C6_stopTasks_drain_witness :
    (stopTasks sampleActive).blockStartTask = true ∧
    ((stopTasks sampleActive).records 0).stopFlag = true ∧
    (stopTasks sampleActive).stopTimers = [1000] ∧
    (stopTasksTimerFire (stopTasks initState)).blockStartTask = false :=
  ⟨(claim_C6_stopTasks_drain sampleActive).1,
    (claim_C6_stopTasks_drain sampleActive).2.2.2.1 0 (by decide),
    (claim_C6_stopTasks_drain sampleActive).2.2.2.2.2.1,
    ((claim_C6_stopTasks_drain initState).2.2.2.2.2.2.2 (by decide)).1⟩

/-- C7: a failed dispatch is atomic: with the type absent from the registry
addTask fails NotRegistered, with a signature mismatch (including the empty
erased callable of a value-initialized descriptor) it fails ArgMismatch, and
in every failing case the returned engine state is exactly the input state —
no record, no consumed id, untouched lists and registry. -/
theorem claim_C7_dispatch_failure_atomic (s : CoreState) (t : TaskType) (args : List Nat) :
    (hashContains s.taskHash t = false →
      addTask s t args = (Except.error CoreError.NotRegistered, s)) ∧
    (∀ info, hashLookup s.taskHash t = some info → info.sig ≠ some args →
      addTask s t args = (Except.error CoreError.ArgMismatch, s)) ∧
    (∀ e s2, addTask s t args = (Except.error e, s2) → s2 = s) := by
  refine ⟨addTask_not_registered s t args,
    fun info hl hs => addTask_mismatch s t args info hl hs, ?_⟩
  intro e s2 hEq
  by_cases hreg : hashContains s.taskHash t = true
  · obtain ⟨info, hl⟩ := lookup_of_hashContains s.taskHash t hreg
    by_cases hsig : info.sig = some args
    · exfalso
      rw [addTask_success s t args info hl hsig] at hEq
      exact Except.noConfusion (congrArg Prod.fst hEq)
    · rw [addTask_mismatch s t args info hl hsig] at hEq
      exact (congrArg Prod.snd hEq).symm
  · rw [addTask_not_registered s t args (Bool.not_eq_true _ ▸ hreg)] at hEq
    exact (congrArg Prod.snd hEq).symm

theorem claim_C7_dispatch_failure_atomic_witness :
    addTask initState 9 [] = (Except.error CoreError.NotRegistered, initState) ∧
    addTask (run initState [Op.register 3 [5] 2 100]) 3 []
      = (Except.error CoreError.ArgMismatch, run initState [Op.register 3 [5] 2 100]) :=
  ⟨(claim_C7_dispatch_failure_atomic initState 9 []).1 (by decide),
    (claim_C7_dispatch_failure_atomic (run initState [Op.register 3 [5] 2 100]) 3 []).2.1
      ⟨some [5], 2, 100⟩ (by decide) (by decide)⟩

/-- C8 is right about the intent but the code violates it: after
register(5, group 1, stopTimeout 100), addTask(5) (record id 0 becomes
active) and unregister(5) (returning true, leaving the type unregistered),
the call stopTaskById(0) reads `m_taskHash[pTask->m_type]` through
QHash::operator[], which re-inserts a value-initialized descriptor for
type 5 — isTaskRegistered(5) flips back to true with an empty callable,
group 0 and stopTimeout 0. -/
theorem claim_C8_unregistered_descriptor_reappears :
    (unregisterTask (run initState [Op.register 5 [] 1 100, Op.add 5 []]) 5).1 = true ∧
    isTaskRegistered (run initState
      [Op.register 5 [] 1 100, Op.add 5 [], Op.unregister 5]) 5 = false ∧
    isTaskRegistered (run initState
      [Op.register 5 [] 1 100, Op.add 5 [], Op.unregister 5, Op.stopById 0]) 5 = true ∧
    hashLookup (run initState
      [Op.register 5 [] 1 100, Op.add 5 [], Op.unregister 5, Op.stopById 0]).taskHash 5
      = some defaultTaskInfo := by
  decide

/-- C9: the stop/terminate API resolves its key only against the active
list.  For a queued record q: stopTaskById(q) and terminateTaskById(q) are
complete no-ops; stopTaskByType and stopTaskByGroup with any key never touch
q (its stop flag is false by the queued-record invariant and stays false,
and the queue is unchanged); and q is still startable by a later drain —
when its turn comes at the head of the queue with its group free, the drain
starts it. -/
theorem claim_C9_queued_untouched_by_stop_api (s : CoreState) (q : TaskId)
    (hr : Reachable s) (hq : q ∈ s.queuedTaskList) :
    stopTaskById s q = s ∧
    terminateTaskById s q = s ∧
    (s.records q).stopFlag = false ∧
    (s.records q).state = TaskState.Inactive ∧
    (∀ t : TaskType, (stopTaskByType s t).queuedTaskList = s.queuedTaskList ∧
      (stopTaskByType s t).records q = s.records q) ∧
    (∀ g : TaskGroup, (stopTaskByGroup s g).queuedTaskList = s.queuedTaskList ∧
      (stopTaskByGroup s g).records q = s.records q) ∧
    (∀ t2 : CoreState, t2.queuedTaskList.head? = some q →
      (t2.activeTaskList.all
        (fun aid => (t2.records q).group != (t2.records aid).group)) = true →
      q ∈ (startQueuedTask t2).activeTaskList) := by
  have hwf := reachable_wf s hr
  have hqa : q ∉ s.activeTaskList := fun hc => hwf.2.2.2.2.2.1 q hc hq
  have hfind : s.activeTaskList.find? (fun a => a == q) = none :=
    List.find?_eq_none.mpr (fun x hx hbeq =>
      hqa ((show x = q by simpa using hbeq) ▸ hx))
  refine ⟨?_, ?_, (hwf.2.2.2.2.2.2 q hq).1, (hwf.2.2.2.2.2.2 q hq).2, ?_, ?_, ?_⟩
  · unfold stopTaskById activeTaskById
    rw [hfind]
  · unfold terminateTaskById activeTaskById
    rw [hfind]
  · intro t
    unfold stopTaskByType
    cases hfd : activeTaskByType s t with
    | none => exact ⟨rfl, rfl⟩
    | some tid =>
      unfold activeTaskByType at hfd
      have hmem := List.mem_of_find?_eq_some hfd
      have hne : q ≠ tid := fun hc => hqa (hc ▸ hmem)
      exact ⟨stopTask_queuedTaskList s tid, stopTask_records_ne s tid q hne⟩
  · intro g
    unfold stopTaskByGroup
    cases hfd : activeTaskByGroup s g with
    | none => exact ⟨rfl, rfl⟩
    | some tid =>
      unfold activeTaskByGroup at hfd
      have hmem := List.mem_of_find?_eq_some hfd
      have hne : q ≠ tid := fun hc => hqa (hc ▸ hmem)
      exact ⟨stopTask_queuedTaskList s tid, stopTask_records_ne s tid q hne⟩
  · intro t2 hhead hguard
    obtain ⟨e1, _⟩ := startQueuedTask_spec t2
    have hgq : (t2.records q).group ∉ activeGroups t2 := (drainStep_guard_iff t2 q).mp hguard
    cases hql : t2.queuedTaskList with
    | nil =>
      rw [hql] at hhead
      exact absurd hhead (by simp)
    | cons a rest =>
      rw [hql] at hhead e1
      have haq : a = q := by simpa using hhead
      subst haq
      rw [drainSpecWalk_cons_not_mem (activeGroups t2)
        (fun j => (t2.records j).group) a rest hgq] at e1
      rw [e1]
      exact List.mem_append.mpr (Or.inr (List.mem_cons_self _ _))

theorem claim_C9_queued_untouched_by_stop_api_witness :
    1 ∈ sampleQueued.queuedTaskList ∧
    stopTaskById sampleQueued 1 = sampleQueued ∧
    terminateTaskById sampleQueued 1 = sampleQueued ∧
    (sampleQueued.records 1).stopFlag = false :=
  ⟨by decide,
    (claim_C9_queued_untouched_by_stop_api sampleQueued 1 ⟨_, rfl⟩ (by decide)).1,
    (claim_C9_queued_untouched_by_stop_api sampleQueued 1 ⟨_, rfl⟩ (by decide)).2.1,
    (claim_C9_queued_untouched_by_stop_api sampleQueued 1 ⟨_, rfl⟩ (by decide)).2.2.1⟩

/-- C10: groupByTask on a type absent from the registry reports ok = false
and the sentinel group -1; on a registered type it reports the descriptor's
group with ok = true. -/
theorem claim_C10_groupByTask_unknown_type (s : CoreState) (t : TaskType) :
    (isTaskRegistered s t = false → groupByTask s t = (-1, false)) ∧
    (∀ info, hashLookup s.taskHash t = some info → groupByTask s t = (info.group, true)) := by
  constructor
  · intro h
    unfold groupByTask
    rw [if_neg (by simp [h])]
  · intro info hl
    unfold groupByTask
    rw [if_pos (show isTaskRegistered s t = true
      from hashContains_of_lookup s.taskHash t info hl), hl, Option.getD_some]

theorem claim_C10_groupByTask_unknown_type_witness :
    isTaskRegistered initState 7 = false ∧
    groupByTask initState 7 = (-1, false) ∧
    hashLookup (registerTask initState 7 [] 4 1000).taskHash 7
      = some ⟨some [], 4, 1000⟩ ∧
    groupByTask (registerTask initState 7 [] 4 1000) 7 = (4, true) :=
  ⟨by decide,
    (claim_C10_groupByTask_unknown_type initState 7).1 (by decide),
    by decide,
    (claim_C10_groupByTask_unknown_type (registerTask initState 7 [] 4 1000) 7).2
      ⟨some [], 4, 1000⟩ (by decide)⟩

end CoreTemplate
